import Mathlib

/-!
Verification development for the agentapi unified middleware repository.

Each definition is a shallow embedding of a function from the Go sources:
* `Sync` — the real-time synchronization hub (`lib/middleware/sync`):
  message filtering (`shouldReceiveMessage`), broadcast selection, and a
  sequential model of the hub's registry/queue lifecycle operations.
* `Errors` — the error-recovery middleware (`lib/middleware/errors`):
  `sanitizeMessage`, the status→code mapping of `HandleError`, and the
  message emitted by `writeErrorResponse`.
* `Auth` — the authentication middleware (`lib/middleware/auth`):
  `validateJWT` (over a model of the jwt/v5 library's default parsing)
  and `validateAPIKey`.
* `Claude` — the session layer (`lib/middleware/claude`): the retry loop
  of `forwardToClaudeCode` and `CleanupSessions`.
* `Mw` — configuration records, `ValidateConfig`, `CreateDefaultConfig`
  and the manager's `UpdateConfig` (`lib/middleware/manager.go`).
* `Validation` — the request validator (`lib/middleware/validation`):
  size/header/content-type checks, `validateAndBufferJSON` and
  `validateJSONStructure`.

Machine integers are modelled as `Int`/`Nat` (no overflow is reachable in
the modelled code paths), Go strings as `String`/`List Char`, Go maps as
association lists, and fallible functions as `Except`.
-/

namespace Sync

/-- Connection state relevant to filtering: `Client.UserID` / `Client.AgentID`
from the sync middleware (the spec's `principal_id` / `subject_id`). -/
structure Client where
  id : String
  userID : String
  agentID : String
deriving DecidableEq

/-- The fan-out unit: `SyncMessage.UserID` / `SyncMessage.AgentID` are the
spec's `target_principal` / `target_subject`. -/
structure SyncMessage where
  msgType : String
  userID : String
  agentID : String
  clientID : String
deriving DecidableEq

/-- Translation of `shouldReceiveMessage` (sync middleware): the exact
early-return chain of the Go function. -/
def shouldReceiveMessage (client : Client) (message : SyncMessage) : Bool :=
  if message.userID = "" ∧ message.agentID = "" then true
  else if message.userID ≠ "" ∧ client.userID = message.userID then true
  else if message.agentID ≠ "" ∧ client.agentID = message.agentID then true
  else false

/-- The set of connections selected by `broadcastMessage` for a message:
the registry filtered through `shouldReceiveMessage`. -/
def broadcastTargets (clients : List Client) (message : SyncMessage) : List Client :=
  clients.filter (fun c => shouldReceiveMessage c message)

/-- Refinement comparison definition written from the spec's words, not from
the code: "if both targets are empty → broadcast to all; else a connection
receives it iff every non-empty target matches the connection's
corresponding field". -/
def specFilterRule (client : Client) (message : SyncMessage) : Prop :=
  (message.userID ≠ "" → client.userID = message.userID) ∧
  (message.agentID ≠ "" → client.agentID = message.agentID)

end Sync

/-- Claim C1, counterexample: the connection `(userID = "u1", agentID = "a1")`
receives the message targeted at `(target_principal = "u1",
target_subject = "a2")` although its subject does not match the non-empty
target subject, so the spec's all-non-empty-targets-must-match rule (and its
"delivered exactly to connections with `subject_id = S` and to no others"
consequence) is violated by the code. -/
theorem shouldReceive_and_rule_disagree :
    Sync.shouldReceiveMessage ⟨"c1", "u1", "a1"⟩ ⟨"status", "u1", "a2", ""⟩ = true ∧
    ¬ Sync.specFilterRule ⟨"c1", "u1", "a1"⟩ ⟨"status", "u1", "a2", ""⟩ ∧
    ("a2" : String) ≠ "" ∧ ("a1" : String) ≠ "a2" := by
  refine ⟨by decide, fun h => ?_, by decide, by decide⟩
  have := h.2 (by decide)
  simp at this

/-- Claim C1, amended: a connection receives an envelope iff both targets are
empty, or at least one non-empty target matches the connection's
corresponding field (OR semantics, not the spec's AND semantics); the
broadcast walk delivers to exactly the registered connections the filter
selects. -/
theorem shouldReceive_or_semantics :
    ∀ (c : Sync.Client) (m : Sync.SyncMessage) (clients : List Sync.Client),
      (Sync.shouldReceiveMessage c m = true ↔
        ((m.userID = "" ∧ m.agentID = "") ∨
         (m.userID ≠ "" ∧ c.userID = m.userID) ∨
         (m.agentID ≠ "" ∧ c.agentID = m.agentID))) ∧
      (c ∈ Sync.broadcastTargets clients m ↔
        c ∈ clients ∧ Sync.shouldReceiveMessage c m = true) := by
  intro c m clients
  constructor
  · unfold Sync.shouldReceiveMessage
    split_ifs with h1 h2 h3 <;> simp_all
  · exact List.mem_filter

namespace Sync

/-- A registered connection's observable channel state in the sequential hub
model: queue occupancy of the buffered `Send` channel and the number of
times `close(client.Send)` has been executed on it (in Go, a second close
panics at runtime). -/
structure HubClient where
  id : String
  userID : String
  agentID : String
  queueLen : Nat
  closeCount : Nat
deriving DecidableEq

/-- Hub state: the registry `s.clients` plus the final channel state of
connections already removed from the registry. -/
structure HubState where
  clients : List HubClient
  removed : List HubClient
deriving DecidableEq

/-- `registerClient`: insert into the registry, then attempt a non-blocking
enqueue of the `welcome` envelope; on a full queue the code closes the
channel and deletes the entry. -/
def registerClient (cap : Nat) (st : HubState) (c : HubClient) : HubState :=
  if c.queueLen < cap then
    { st with clients := st.clients ++ [{ c with queueLen := c.queueLen + 1 }] }
  else
    { st with removed := st.removed ++ [{ c with closeCount := c.closeCount + 1 }] }

/-- The `ping` branch of `handleClientMessage`: a non-blocking enqueue of the
`pong` envelope; on a full queue the code closes the channel but leaves the
client in the registry. -/
def pingClient (cap : Nat) (st : HubState) (id : String) : HubState :=
  { st with
    clients := st.clients.map (fun c =>
      if c.id = id then
        if c.queueLen < cap ∧ c.closeCount = 0 then { c with queueLen := c.queueLen + 1 }
        else { c with closeCount := c.closeCount + 1 }
      else c) }

/-- `unregisterClient`: if the id is present, delete it from the registry and
close the channel (unconditionally of any earlier close). -/
def unregisterClient (st : HubState) (id : String) : HubState :=
  { clients := st.clients.filter (fun c => c.id ≠ id),
    removed := st.removed ++
      (st.clients.filter (fun c => c.id = id)).map
        (fun c => { c with closeCount := c.closeCount + 1 }) }

/-- One client's fate during `broadcastMessage`: a selected client gets a
non-blocking enqueue; on a full queue the code closes the channel and
deletes the entry. The `Bool` records whether the client stays registered. -/
def broadcastStep (cap : Nat) (m : SyncMessage) (c : HubClient) : HubClient × Bool :=
  if shouldReceiveMessage ⟨c.id, c.userID, c.agentID⟩ m then
    if c.queueLen < cap ∧ c.closeCount = 0 then ({ c with queueLen := c.queueLen + 1 }, true)
    else ({ c with closeCount := c.closeCount + 1 }, false)
  else (c, true)

/-- `broadcastMessage`: walk the registry applying `broadcastStep`. -/
def broadcastMessage (cap : Nat) (st : HubState) (m : SyncMessage) : HubState :=
  let results := st.clients.map (broadcastStep cap m)
  { clients := (results.filter (fun r => r.2)).map (fun r => r.1),
    removed := st.removed ++ (results.filter (fun r => ¬ r.2)).map (fun r => r.1) }

/-- The hub operations reachable from the supervisor and the per-connection
reader tasks, sequentialized. -/
inductive HubOp where
  | register (c : HubClient)
  | ping (id : String)
  | unregister (id : String)
  | broadcast (m : SyncMessage)

def hubStep (cap : Nat) (st : HubState) : HubOp → HubState
  | .register c => registerClient cap st c
  | .ping id => pingClient cap st id
  | .unregister id => unregisterClient st id
  | .broadcast m => broadcastMessage cap st m

def runHub (cap : Nat) (st : HubState) (ops : List HubOp) : HubState :=
  ops.foldl (hubStep cap) st

end Sync

/-- Claim C4: with outbound capacity 1, the sequence «register c (the welcome
envelope fills the queue); c sends ping (the pong cannot be enqueued, the
channel is closed but c stays registered); c's reader exits and unregisters
c (the already-closed channel is closed a second time)» drives
`closeCount` to 2 — the same connection's outbound channel is closed twice
(in Go this is a `close of closed channel` runtime panic), contradicting
the claimed once-only close/removal discipline. -/
theorem hub_double_close :
    (Sync.runHub 1 ⟨[], []⟩
      [.register ⟨"c", "u", "a", 0, 0⟩, .ping "c", .unregister "c"]).removed =
      [⟨"c", "u", "a", 1, 2⟩] ∧
    (Sync.runHub 1 ⟨[], []⟩
      [.register ⟨"c", "u", "a", 0, 0⟩, .ping "c", .unregister "c"]).clients = [] := by
  constructor <;> rfl

namespace Errors

/-- `sensitivePatterns` from `sanitizeMessage` (`errors.go`). -/
def sensitivePatterns : List (List Char) :=
  ["password".data, "token".data, "key".data, "secret".data, "auth".data, "credential".data]

/-- The replacement text used by `sanitizeMessage`. -/
def redactedText : List Char := "[REDACTED]".data

/-- Fuelled model of Go's `strings.ReplaceAll` for a non-empty pattern:
left-to-right, non-overlapping replacement. The fuel only bounds the
recursion; `replaceAll` below supplies `s.length`, which always suffices
because each step consumes at least one character of the input. -/
def replaceListF (p r : List Char) : Nat → List Char → List Char
  | 0, s => s
  | _ + 1, [] => []
  | fuel + 1, c :: cs =>
    if p ≠ [] ∧ p <+: (c :: cs) then
      r ++ replaceListF p r fuel ((c :: cs).drop p.length)
    else
      c :: replaceListF p r fuel cs

/-- `strings.ReplaceAll s p r` (for the non-empty patterns used here). -/
def replaceAll (s p r : List Char) : List Char :=
  replaceListF p r s.length s

/-- `strings.ToLower`, restricted to the ASCII mapping (all sensitive
patterns and all counterexamples in this file are ASCII). -/
def toLowerStr (s : List Char) : List Char := s.map Char.toLower

/-- One iteration of the loop in `sanitizeMessage`: the containment test is
against the lowercased current text, but the replacement itself is
case-sensitive (`strings.ReplaceAll` with the lowercase pattern). -/
def sanitizeStep (s p : List Char) : List Char :=
  if p <:+: toLowerStr s then replaceAll s p redactedText else s

/-- `sanitizeMessage` (`errors.go`): fold `sanitizeStep` over the sensitive
patterns in source order. -/
def sanitizeMessage (message : List Char) : List Char :=
  sensitivePatterns.foldl sanitizeStep message

/-- The message text emitted by `writeErrorResponse` (and logged by
`logError`): sanitized exactly when `SanitizeSecrets` is configured. -/
def emittedErrorMessage (sanitizeSecrets : Bool) (message : List Char) : List Char :=
  if sanitizeSecrets then sanitizeMessage message else message

/-- ASCII lowercase letter predicate; every sensitive pattern consists of
such characters only, while `redactedText` contains none. -/
def isLowerAlpha (c : Char) : Bool := decide ('a' ≤ c ∧ c ≤ 'z')

theorem lower_notMem_append {p u : List Char} (hp : p ≠ [])
    (hpl : ∀ c ∈ p, isLowerAlpha c = true) (hu : ∀ c ∈ u, isLowerAlpha c = false) :
    ∀ v, p <:+: (u ++ v) → p <:+: v := by
  induction u with
  | nil => intro v h; simpa using h
  | cons a u ih =>
    intro v h
    rw [List.cons_append] at h
    rcases List.infix_cons_iff.mp h with hpre | hinf
    · cases p with
      | nil => exact absurd rfl hp
      | cons b p' =>
        have hba : b = a := (List.cons_prefix_cons.mp hpre).1
        have h1 : isLowerAlpha b = true := hpl b (List.mem_cons_self _ _)
        have h2 : isLowerAlpha a = false := hu a (List.mem_cons_self _ _)
        rw [hba, h2] at h1
        exact absurd h1 (by simp)
    · exact ih (fun c hc => hu c (List.mem_cons_of_mem _ hc)) v hinf

theorem prefix_replaceListF {p r : List Char} (hr0 : r ≠ [])
    (hrl : ∀ c ∈ r, isLowerAlpha c = false) :
    ∀ fuel (q t : List Char), q ≠ [] → (∀ c ∈ q, isLowerAlpha c = true) →
      q <+: replaceListF p r fuel t → q <+: t := by
  intro fuel
  induction fuel with
  | zero => intro q t _ _ h; simpa [replaceListF] using h
  | succ fuel ih =>
    intro q t hq hql h
    cases t with
    | nil =>
      simp only [replaceListF] at h
      exact absurd (List.prefix_nil.mp h) hq
    | cons c cs =>
      by_cases hcond : p ≠ [] ∧ p <+: (c :: cs)
      · rw [show replaceListF p r (fuel + 1) (c :: cs) =
            r ++ replaceListF p r fuel ((c :: cs).drop p.length) by
          simp [replaceListF, hcond]] at h
        cases r with
        | nil => exact absurd rfl hr0
        | cons d r' =>
          cases q with
          | nil => exact absurd rfl hq
          | cons b q' =>
            rw [List.cons_append] at h
            have hbd : b = d := (List.cons_prefix_cons.mp h).1
            have h1 : isLowerAlpha b = true := hql b (List.mem_cons_self _ _)
            have h2 : isLowerAlpha d = false := hrl d (List.mem_cons_self _ _)
            rw [hbd, h2] at h1
            exact absurd h1 (by simp)
      · rw [show replaceListF p r (fuel + 1) (c :: cs) =
            c :: replaceListF p r fuel cs by simp [replaceListF, hcond]] at h
        cases q with
        | nil => exact absurd rfl hq
        | cons b q' =>
          obtain ⟨hbc, hq'⟩ := List.cons_prefix_cons.mp h
          cases q' with
          | nil => exact hbc ▸ List.cons_prefix_cons.mpr ⟨rfl, List.nil_prefix⟩
          | cons x xs =>
            have hxs : (x :: xs) <+: cs :=
              ih (x :: xs) cs (by simp)
                (fun e he => hql e (List.mem_cons_of_mem _ he)) hq'
            exact hbc ▸ List.cons_prefix_cons.mpr ⟨rfl, hxs⟩

theorem not_infix_replaceListF {p r : List Char} (hp : p ≠ [])
    (hpl : ∀ c ∈ p, isLowerAlpha c = true) (hr0 : r ≠ [])
    (hrl : ∀ c ∈ r, isLowerAlpha c = false) :
    ∀ fuel t, t.length ≤ fuel → ¬ p <:+: replaceListF p r fuel t := by
  intro fuel
  induction fuel with
  | zero =>
    intro t ht h
    obtain rfl : t = [] := List.length_eq_zero.mp (Nat.le_zero.mp ht)
    simp only [replaceListF] at h
    exact hp (List.eq_nil_of_infix_nil h)
  | succ fuel ih =>
    intro t ht h
    cases t with
    | nil =>
      simp only [replaceListF] at h
      exact hp (List.eq_nil_of_infix_nil h)
    | cons c cs =>
      simp only [List.length_cons, Nat.add_le_add_iff_right] at ht
      by_cases hcond : p ≠ [] ∧ p <+: (c :: cs)
      · rw [show replaceListF p r (fuel + 1) (c :: cs) =
            r ++ replaceListF p r fuel ((c :: cs).drop p.length) by
          simp [replaceListF, hcond]] at h
        have h2 := lower_notMem_append hp hpl hrl _ h
        have hplen : 0 < p.length := List.length_pos.mpr hp
        refine ih _ ?_ h2
        simp only [List.length_drop, List.length_cons]
        omega
      · rw [show replaceListF p r (fuel + 1) (c :: cs) =
            c :: replaceListF p r fuel cs by simp [replaceListF, hcond]] at h
        rcases List.infix_cons_iff.mp h with hpre | hinf
        · cases p with
          | nil => exact hp rfl
          | cons b p' =>
            obtain ⟨hbc, hp'⟩ := List.cons_prefix_cons.mp hpre
            cases p' with
            | nil =>
              exact hcond ⟨hp, hbc ▸ List.cons_prefix_cons.mpr ⟨rfl, List.nil_prefix⟩⟩
            | cons x xs =>
              have hxs : (x :: xs) <+: cs :=
                prefix_replaceListF hr0 hrl fuel (x :: xs) cs (by simp)
                  (fun e he => hpl e (List.mem_cons_of_mem _ he)) hp'
              exact hcond ⟨hp, hbc ▸ List.cons_prefix_cons.mpr ⟨rfl, hxs⟩⟩
        · exact ih cs ht hinf

theorem preserves_not_infix {p r q : List Char} (hq : q ≠ [])
    (hql : ∀ c ∈ q, isLowerAlpha c = true) (hr0 : r ≠ [])
    (hrl : ∀ c ∈ r, isLowerAlpha c = false) :
    ∀ fuel t, ¬ q <:+: t → ¬ q <:+: replaceListF p r fuel t := by
  intro fuel
  induction fuel with
  | zero => intro t ht; simpa [replaceListF] using ht
  | succ fuel ih =>
    intro t ht h
    cases t with
    | nil =>
      simp only [replaceListF] at h
      exact hq (List.eq_nil_of_infix_nil h)
    | cons c cs =>
      by_cases hcond : p ≠ [] ∧ p <+: (c :: cs)
      · rw [show replaceListF p r (fuel + 1) (c :: cs) =
            r ++ replaceListF p r fuel ((c :: cs).drop p.length) by
          simp [replaceListF, hcond]] at h
        have h2 := lower_notMem_append hq hql hrl _ h
        have hdrop : ¬ q <:+: (c :: cs).drop p.length := fun hx =>
          ht (hx.trans (List.drop_suffix _ _).isInfix)
        exact ih _ hdrop h2
      · rw [show replaceListF p r (fuel + 1) (c :: cs) =
            c :: replaceListF p r fuel cs by simp [replaceListF, hcond]] at h
        rcases List.infix_cons_iff.mp h with hpre | hinf
        · cases q with
          | nil => exact hq rfl
          | cons b q' =>
            obtain ⟨hbc, hq'⟩ := List.cons_prefix_cons.mp hpre
            cases q' with
            | nil =>
              exact ht (hbc ▸ (List.cons_prefix_cons.mpr ⟨rfl, List.nil_prefix⟩).isInfix)
            | cons x xs =>
              have hxs : (x :: xs) <+: cs :=
                prefix_replaceListF hr0 hrl fuel (x :: xs) cs (by simp)
                  (fun e he => hql e (List.mem_cons_of_mem _ he)) hq'
              exact ht (hbc ▸ (List.cons_prefix_cons.mpr ⟨rfl, hxs⟩).isInfix)
        · have hcs : ¬ q <:+: cs := fun hx => ht (List.infix_cons_iff.mpr (Or.inr hx))
          exact ih cs hcs hinf

theorem sanitizeStep_removes {s p : List Char} (hp : p ≠ [])
    (hpl : ∀ c ∈ p, isLowerAlpha c = true) (hmap : p.map Char.toLower = p) :
    ¬ p <:+: sanitizeStep s p := by
  unfold sanitizeStep
  by_cases hc : p <:+: toLowerStr s
  · rw [if_pos hc]
    exact not_infix_replaceListF hp hpl (by decide) (by decide) s.length s le_rfl
  · rw [if_neg hc]
    intro h
    exact hc (by simpa [toLowerStr, hmap] using List.IsInfix.map Char.toLower h)

theorem sanitizeStep_preserves {s p q : List Char} (hq : q ≠ [])
    (hql : ∀ c ∈ q, isLowerAlpha c = true) (h : ¬ q <:+: s) :
    ¬ q <:+: sanitizeStep s p := by
  unfold sanitizeStep
  by_cases hc : p <:+: toLowerStr s
  · rw [if_pos hc]
    exact preserves_not_infix hq hql (by decide) (by decide) s.length s h
  · rwa [if_neg hc]

theorem foldl_sanitize_preserves {q : List Char} (hq : q ≠ [])
    (hql : ∀ c ∈ q, isLowerAlpha c = true) :
    ∀ (pats : List (List Char)) (m : List Char),
      ¬ q <:+: m → ¬ q <:+: pats.foldl sanitizeStep m := by
  intro pats
  induction pats with
  | nil => intro m hm; simpa using hm
  | cons a pats ih =>
    intro m hm
    rw [List.foldl_cons]
    exact ih _ (sanitizeStep_preserves hq hql hm)

theorem sanitize_no_lowercase_pattern :
    ∀ (message p : List Char), p ∈ sensitivePatterns → ¬ p <:+: sanitizeMessage message := by
  have key : ∀ (pats : List (List Char)),
      (∀ q ∈ pats, q ≠ [] ∧ (∀ c ∈ q, isLowerAlpha c = true) ∧ q.map Char.toLower = q) →
      ∀ (m p : List Char), p ∈ pats → ¬ p <:+: pats.foldl sanitizeStep m := by
    intro pats
    induction pats with
    | nil => intro _ m p hp; simp at hp
    | cons a pats ih =>
      intro hall m p hp
      rw [List.foldl_cons]
      rcases List.mem_cons.mp hp with rfl | hp'
      · obtain ⟨h1, h2, h3⟩ := hall p (List.mem_cons_self _ _)
        exact foldl_sanitize_preserves h1 h2 pats _ (sanitizeStep_removes h1 h2 h3)
      · exact ih (fun e he => hall e (List.mem_cons_of_mem _ he)) (sanitizeStep m a) p hp'
  intro message p hp
  exact key sensitivePatterns (by decide) message p hp

end Errors

/-- Claim C2, counterexample: with `sanitize_secrets` on, the error message
`Password=hunter2` is emitted unchanged — the containment test lowercases
the text, but `strings.ReplaceAll` is case-sensitive, so `Password` (which
contains `password` case-insensitively) survives in the emitted message. -/
theorem sanitize_misses_mixed_case :
    Errors.emittedErrorMessage true "Password=hunter2".data = "Password=hunter2".data ∧
    "password".data <:+:
      Errors.toLowerStr (Errors.emittedErrorMessage true "Password=hunter2".data) := by
  exact ⟨by decide, by decide⟩

/-- Claim C2, amended: with `sanitize_secrets` on, no sensitive key appears in
the emitted error message as an exact lowercase substring — every lowercase
occurrence of `password`, `token`, `key`, `secret`, `auth`, `credential` is
redacted; matching for replacement is case-sensitive, so occurrences in
other letter cases are detected but not replaced. -/
theorem emitted_message_no_lowercase_secret :
    ∀ (message p : List Char), p ∈ Errors.sensitivePatterns →
      ¬ p <:+: Errors.emittedErrorMessage true message := by
  intro message p hp
  simpa [Errors.emittedErrorMessage] using
    Errors.sanitize_no_lowercase_pattern message p hp

/-- Witness for the amended C2 theorem at a concrete message and pattern. -/
theorem emitted_message_no_lowercase_secret_witness :
    "secret".data ∈ Errors.sensitivePatterns ∧
    ¬ "secret".data <:+: Errors.emittedErrorMessage true "db secret leaked".data :=
  ⟨by decide, emitted_message_no_lowercase_secret "db secret leaked".data "secret".data
    (by decide)⟩

namespace Errors

/-- The `switch statusCode` of `HandleError` (`errors.go`): the error code
written into the response envelope for an explicitly reported error. -/
def handleErrorCode (statusCode : Nat) : String :=
  match statusCode with
  | 400 => "BAD_REQUEST"
  | 401 => "UNAUTHORIZED"
  | 403 => "FORBIDDEN"
  | 404 => "NOT_FOUND"
  | 405 => "METHOD_NOT_ALLOWED"
  | 409 => "CONFLICT"
  | 429 => "RATE_LIMITED"
  | 500 => "INTERNAL_SERVER_ERROR"
  | 502 => "BAD_GATEWAY"
  | 503 => "SERVICE_UNAVAILABLE"
  | 504 => "GATEWAY_TIMEOUT"
  | _ => "UNKNOWN_ERROR"

/-- Refinement comparison definition written from the spec's status→code
table (section 4.2), not from the code. -/
def specStatusCode (status : Nat) : Option String :=
  match status with
  | 400 => some "BAD_REQUEST"
  | 401 => some "UNAUTHORIZED"
  | 403 => some "FORBIDDEN"
  | 404 => some "NOT_FOUND"
  | 405 => some "METHOD_NOT_ALLOWED"
  | 408 => some "REQUEST_TIMEOUT"
  | 409 => some "CONFLICT"
  | 422 => some "UNPROCESSABLE_ENTITY"
  | 429 => some "RATE_LIMITED"
  | 500 => some "INTERNAL_SERVER_ERROR"
  | 502 => some "BAD_GATEWAY"
  | 503 => some "SERVICE_UNAVAILABLE"
  | 504 => some "GATEWAY_TIMEOUT"
  | _ => none

/-- `HandleError`: returns nothing when `err == nil`, otherwise the
status/code/message triple written by `writeErrorResponse` (the message is
sanitized iff `SanitizeSecrets` is on). -/
def handleError (sanitizeSecrets : Bool) (err : Option (List Char)) (statusCode : Nat) :
    Option (Nat × String × List Char) :=
  match err with
  | none => none
  | some msg => some (statusCode, handleErrorCode statusCode, emittedErrorMessage sanitizeSecrets msg)

end Errors

/-- Claim C3, counterexample: a reported error with HTTP status 408 is written
with code `UNKNOWN_ERROR`, not the spec table's `REQUEST_TIMEOUT` (and 422
likewise yields `UNKNOWN_ERROR`, not `UNPROCESSABLE_ENTITY`): `HandleError`
has no `case` for 408 or 422. -/
theorem handleError_408_422_unknown :
    Errors.handleError false (some "timed out".data) 408 =
      some (408, "UNKNOWN_ERROR", "timed out".data) ∧
    Errors.specStatusCode 408 = some "REQUEST_TIMEOUT" ∧
    Errors.handleError false (some "bad entity".data) 422 =
      some (422, "UNKNOWN_ERROR", "bad entity".data) ∧
    Errors.specStatusCode 422 = some "UNPROCESSABLE_ENTITY" ∧
    ("UNKNOWN_ERROR" : String) ≠ "REQUEST_TIMEOUT" := by
  refine ⟨by decide, rfl, by decide, rfl, by decide⟩

/-- Claim C3, amended: for explicitly reported errors the written code equals
the spec's status→code mapping for every status in the table except 408 and
422, which have no case in `HandleError` and fall through to
`UNKNOWN_ERROR`. -/
theorem handleErrorCode_matches_spec_except_408_422 :
    (∀ s, s ∈ [400, 401, 403, 404, 405, 409, 429, 500, 502, 503, 504] →
      Errors.specStatusCode s = some (Errors.handleErrorCode s)) ∧
    Errors.handleErrorCode 408 = "UNKNOWN_ERROR" ∧
    Errors.handleErrorCode 422 = "UNKNOWN_ERROR" := by
  refine ⟨fun s hs => ?_, rfl, rfl⟩
  fin_cases hs <;> rfl

/-- Witness for the amended C3 theorem at status 404. -/
theorem handleErrorCode_matches_spec_witness :
    (404 ∈ [400, 401, 403, 404, 405, 409, 429, 500, 502, 503, 504]) ∧
    Errors.specStatusCode 404 = some (Errors.handleErrorCode 404) :=
  ⟨by decide, handleErrorCode_matches_spec_except_408_422.1 404 (by decide)⟩

namespace Auth

/-- JSON claim values that can appear in a token's claim set. -/
inductive ClaimValue where
  | str (s : String)
  | num (n : Int)
deriving DecidableEq

/-- A parsed bearer token: whether its signature verifies against the
configured symmetric HMAC secret (with an HMAC signing method, as the
keyfunc in `validateJWT` requires), plus its claim set. -/
structure Token where
  sigValidHMAC : Bool
  claims : List (String × ClaimValue)
deriving DecidableEq

def lookupClaim (claims : List (String × ClaimValue)) (k : String) : Option ClaimValue :=
  claims.lookup k

/-- Modelled from the jwt/v5 library's documented default validation, which
`jwt.Parse` runs when `validateJWT` calls it with no parser options:
`exp` and `nbf` are checked only when present (exp must be in the future,
nbf must not be in the future); `iat` is checked only when the
`WithIssuedAt` parser option is supplied, and no issuer or audience is
checked unless the corresponding option is supplied — `validateJWT`
supplies no options, so `iat` and `iss` are never validated. -/
def jwtDefaultClaimsValid (now : Int) (claims : List (String × ClaimValue)) : Bool :=
  (match lookupClaim claims "exp" with
    | some (.num e) => decide (now < e)
    | some _ => false
    | none => true) &&
  (match lookupClaim claims "nbf" with
    | some (.num n) => decide (n ≤ now)
    | some _ => false
    | none => true)

/-- `jwt.Parse` succeeds iff the HMAC signature verifies and the default
registered-claim validation passes. -/
def jwtParseOk (now : Int) (tok : Token) : Bool :=
  tok.sigValidHMAC && jwtDefaultClaimsValid now tok.claims

/-- `validateJWT` (`auth.go`): on a successful parse, require a string
`user_id` claim and return it; otherwise reject. -/
def validateJWT (now : Int) (tok : Token) : Except String String :=
  if jwtParseOk now tok then
    match lookupClaim tok.claims "user_id" with
    | some (.str u) => .ok u
    | some _ => .error "invalid token claims"
    | none => .error "invalid token claims"
  else .error "invalid token"

/-- `validateAPIKey` (`auth.go`): look the key up in the in-memory
`apiKeys` registry. -/
def validateAPIKey (apiKeys : List (String × String)) (k : String) : Except String String :=
  match apiKeys.lookup k with
  | some userID => .ok userID
  | none => .error "invalid API key"

/-- A well-signed token carrying only a `user_id` claim — no `iss`, no `exp`,
no `iat`. -/
def tokenMissingRegisteredClaims : Token :=
  ⟨true, [("user_id", .str "alice")]⟩

/-- A well-signed token whose `iat` lies in the future of the validation
instant `now = 1000`. -/
def tokenFutureIat : Token :=
  ⟨true, [("user_id", .str "alice"), ("iat", .num 2000)]⟩

end Auth

/-- Claim C5, counterexample: a bearer token whose claim set has no `iss`, no
`exp` and no `iat` (only `user_id`) is accepted by `validateJWT`, because
`jwt.Parse` is called with no options: the issuer is never matched against
the configured issuer, `exp` is validated only when present, and `iat` is
never validated at all (jwt/v5 checks it only under the `WithIssuedAt`
option) — so a token with a future `iat` is also accepted. The claim
requires any such token to be rejected with 401. -/
theorem validateJWT_accepts_missing_claims :
    Auth.validateJWT 1000 Auth.tokenMissingRegisteredClaims = .ok "alice" ∧
    Auth.lookupClaim Auth.tokenMissingRegisteredClaims.claims "iss" = none ∧
    Auth.lookupClaim Auth.tokenMissingRegisteredClaims.claims "exp" = none ∧
    Auth.lookupClaim Auth.tokenMissingRegisteredClaims.claims "iat" = none ∧
    Auth.validateJWT 1000 Auth.tokenFutureIat = .ok "alice" ∧
    Auth.lookupClaim Auth.tokenFutureIat.claims "iat" = some (.num 2000) ∧
    (1000 : Int) < 2000 := by
  refine ⟨rfl, rfl, rfl, rfl, rfl, rfl, by decide⟩

/-- Claim C5, amended: under bearer mode a token is accepted iff its HMAC
signature verifies, the `exp` and `nbf` claims validate when present
(`exp` in the future, `nbf` not in the future), and a string `user_id`
claim exists — `iss` is never matched against the configured issuer,
`exp`/`iat` are not required to be present, and `iat` is never validated
at all (even a future `iat` is accepted), since `validateJWT` passes no
parser options. A token with a present `exp` in the past still always
rejects. Under api_key mode a key is accepted iff it is present in the
in-memory registry. -/
theorem validateToken_characterization :
    (∀ (now : Int) (tok : Auth.Token),
      (∃ u, Auth.validateJWT now tok = .ok u) ↔
        (tok.sigValidHMAC = true ∧ Auth.jwtDefaultClaimsValid now tok.claims = true ∧
         ∃ u, Auth.lookupClaim tok.claims "user_id" = some (.str u))) ∧
    (∀ (apiKeys : List (String × String)) (k : String),
      (∃ u, Auth.validateAPIKey apiKeys k = .ok u) ↔ (apiKeys.lookup k).isSome = true) := by
  constructor
  · intro now tok
    unfold Auth.validateJWT Auth.jwtParseOk
    by_cases hs : tok.sigValidHMAC = true ∧ Auth.jwtDefaultClaimsValid now tok.claims = true
    · rw [if_pos (by simp [hs.1, hs.2])]
      cases hu : Auth.lookupClaim tok.claims "user_id" with
      | none => simp [hs]
      | some v => cases v <;> simp [hs]
    · rw [if_neg (by intro h; exact hs (by simpa using h))]
      constructor
      · rintro ⟨u, hu⟩
        exact absurd hu (by simp)
      · rintro ⟨h1, h2, -⟩
        exact absurd ⟨h1, h2⟩ hs
  · intro apiKeys k
    unfold Auth.validateAPIKey
    cases h : apiKeys.lookup k <;> simp

namespace Claude

/-- Outcome of one backend call inside `forwardToClaudeCode`: either a
transport error (`c.client.Do` returned a non-nil error) or an HTTP reply. -/
inductive BackendResult where
  | transportError
  | reply (status : Nat) (body : String)
deriving DecidableEq

/-- The loop's break condition `err == nil && resp.StatusCode < 500`. -/
def replyOk : BackendResult → Bool
  | .transportError => false
  | .reply status _ => decide (status < 500)

/-- The retry loop of `forwardToClaudeCode` (`for i := 0; i <= MaxRetries`),
with the backend modelled as the result of its i-th call. Returns the total
number of calls made, the list of sleep durations in seconds (the code
sleeps `i+1` seconds after a failed attempt `i` when retries remain), and
the final result. `remaining` counts the retries still allowed. -/
def retryGo (backend : Nat → BackendResult) (i : Nat) : Nat → Nat × List Nat × BackendResult
  | 0 => (i + 1, [], backend i)
  | remaining + 1 =>
    if replyOk (backend i) then (i + 1, [], backend i)
    else
      let next := retryGo backend (i + 1) remaining
      (next.1, (i + 1) :: next.2.1, next.2.2)

/-- `forwardToClaudeCode`'s whole retry phase: start at attempt 0 with
`MaxRetries` retries allowed. -/
def forwardRetry (backend : Nat → BackendResult) (maxRetries : Nat) :
    Nat × List Nat × BackendResult :=
  retryGo backend 0 maxRetries

/-- The post-loop handling of `forwardToClaudeCode`: a remaining transport
error fails, a non-200 status is surfaced as a `CLAUDE_ERROR`, and a 200
reply's body is decoded and returned. -/
def forwardResult (backend : Nat → BackendResult) (maxRetries : Nat) : Except String String :=
  match (forwardRetry backend maxRetries).2.2 with
  | .transportError => .error "failed to send request"
  | .reply status body => if status = 200 then .ok body else .error "CLAUDE_ERROR"

/-- The S5 scenario backend: 502 twice, then 200. -/
def backendS5 : Nat → BackendResult := fun i =>
  if i < 2 then .reply 502 "bad gateway" else .reply 200 "third reply"

theorem retryGo_spec (backend : Nat → BackendResult) :
    ∀ (remaining i : Nat),
      i + 1 ≤ (retryGo backend i remaining).1 ∧
      (retryGo backend i remaining).1 ≤ i + remaining + 1 ∧
      (retryGo backend i remaining).2.2 = backend ((retryGo backend i remaining).1 - 1) ∧
      (∀ j, i ≤ j → j + 1 < (retryGo backend i remaining).1 → replyOk (backend j) = false) ∧
      (replyOk (backend ((retryGo backend i remaining).1 - 1)) = true ∨
        (retryGo backend i remaining).1 = i + remaining + 1) ∧
      (retryGo backend i remaining).2.1 =
        List.range' (i + 1) ((retryGo backend i remaining).1 - 1 - i) := by
  intro remaining
  induction remaining with
  | zero =>
    intro i
    simp only [retryGo]
    refine ⟨le_rfl, by omega, rfl, ?_, Or.inr (by simp), by simp⟩
    intro j hij hj
    omega
  | succ remaining ih =>
    intro i
    by_cases hok : replyOk (backend i) = true
    · simp only [retryGo, if_pos hok]
      refine ⟨le_rfl, by omega, rfl, ?_, Or.inl (by simpa using hok), by simp⟩
      intro j hij hj
      omega
    · simp only [retryGo, if_neg hok]
      obtain ⟨ha, hb, hc, hd, he, hf⟩ := ih (i + 1)
      refine ⟨by omega, by omega, hc, ?_, ?_, ?_⟩
      · intro j hij hj
        rcases Nat.eq_or_lt_of_le hij with rfl | hlt
        · simpa using hok
        · exact hd j hlt hj
      · rcases he with h | h
        · exact Or.inl h
        · exact Or.inr (by omega)
      · rw [hf, show (retryGo backend (i + 1) remaining).1 - 1 - i =
            ((retryGo backend (i + 1) remaining).1 - 1 - (i + 1)) + 1 by omega]
        rw [List.range'_succ]

theorem backendS5_run (k : Nat) :
    retryGo backendS5 0 (k + 2) = (3, [1, 2], BackendResult.reply 200 "third reply") := by
  have e2 : retryGo backendS5 2 k = (3, [], BackendResult.reply 200 "third reply") := by
    cases k with
    | zero => decide
    | succ k' =>
      have h2 : replyOk (backendS5 2) = true := by decide
      simp [retryGo, h2]
      decide
  have h0 : replyOk (backendS5 0) = false := by decide
  have h1 : replyOk (backendS5 1) = false := by decide
  simp [retryGo, h0, h1, e2]

end Claude

/-- Claim C6: the retry phase of `forwardToClaudeCode` calls the backend at
most `MaxRetries + 1` times, retries exactly on transport errors or replies
with status ≥ 500, stops at the first reply with status < 500 (the result
is the reply of the last call made), and sleeps `attempt + 1` seconds
between successive attempts (the sleep list is `[1, 2, …, calls − 1]`);
with `MaxRetries ≥ 2` and a backend replying 502, 502, 200 the backend is
called exactly 3 times and the third reply is returned to the caller. -/
theorem forwardToClaudeCode_retry_spec :
    (∀ (backend : Nat → Claude.BackendResult) (maxRetries : Nat),
      1 ≤ (Claude.forwardRetry backend maxRetries).1 ∧
      (Claude.forwardRetry backend maxRetries).1 ≤ maxRetries + 1 ∧
      (Claude.forwardRetry backend maxRetries).2.2 =
        backend ((Claude.forwardRetry backend maxRetries).1 - 1) ∧
      (∀ j, j + 1 < (Claude.forwardRetry backend maxRetries).1 →
        Claude.replyOk (backend j) = false) ∧
      (Claude.replyOk (backend ((Claude.forwardRetry backend maxRetries).1 - 1)) = true ∨
        (Claude.forwardRetry backend maxRetries).1 = maxRetries + 1) ∧
      (Claude.forwardRetry backend maxRetries).2.1 =
        List.range' 1 ((Claude.forwardRetry backend maxRetries).1 - 1)) ∧
    (∀ maxRetries, 2 ≤ maxRetries →
      Claude.forwardRetry Claude.backendS5 maxRetries =
        (3, [1, 2], Claude.BackendResult.reply 200 "third reply") ∧
      Claude.forwardResult Claude.backendS5 maxRetries = .ok "third reply") := by
  constructor
  · intro backend maxRetries
    obtain ⟨ha, hb, hc, hd, he, hf⟩ := Claude.retryGo_spec backend maxRetries 0
    simp only [Claude.forwardRetry]
    refine ⟨by omega, by omega, hc, fun j hj => hd j (Nat.zero_le j) hj, ?_, ?_⟩
    · rcases he with h | h
      · exact Or.inl h
      · exact Or.inr (by omega)
    · simpa using hf
  · intro maxRetries hmr
    obtain ⟨k, rfl⟩ : ∃ k, maxRetries = k + 2 := ⟨maxRetries - 2, by omega⟩
    refine ⟨Claude.backendS5_run k, ?_⟩
    simp [Claude.forwardResult, Claude.forwardRetry, Claude.backendS5_run k]

/-- Witness for the C6 theorem's scenario part at `MaxRetries = 2`. -/
theorem forwardToClaudeCode_retry_spec_witness :
    (2 ≤ 2) ∧
    Claude.forwardRetry Claude.backendS5 2 =
      (3, [1, 2], Claude.BackendResult.reply 200 "third reply") :=
  ⟨by decide, (forwardToClaudeCode_retry_spec.2 2 (by decide)).1⟩

namespace Claude

/-- The session registry, keyed by session id with each session's
`LastActivity` timestamp in nanoseconds. -/
abbrev SessionReg := List (String × Int)

/-- `CleanupSessions(maxAge)`: with `cutoff := now − maxAge`, delete exactly
the sessions with `LastActivity.Before(cutoff)`. -/
def cleanupSessions (maxAge now : Int) (sessions : SessionReg) : SessionReg :=
  sessions.filter (fun s => ¬ decide (s.2 < now - maxAge))

/-- The idle threshold `30 * time.Minute` passed by `performCleanup`
(`manager.go`), in nanoseconds. -/
def idleThresholdNs : Int := 30 * 60 * 1000000000

/-- The GC tick period `5 * time.Minute` of `runCleanup` (`manager.go`),
in nanoseconds. -/
def cleanupIntervalNs : Int := 5 * 60 * 1000000000

/-- One run of the 5-minute periodic cleanup: `performCleanup` calls
`CleanupSessions(30 * time.Minute)`. -/
def performCleanup (now : Int) (sessions : SessionReg) : SessionReg :=
  cleanupSessions idleThresholdNs now sessions

end Claude

/-- Claim C8: a cleanup run keeps a session iff its `last_activity` is within
the idle threshold of the decision instant `now`, and evicts exactly the
sessions whose `last_activity` is strictly older than `now` minus the
30-minute threshold; a session within the threshold is never evicted. -/
theorem sessionGC_evicts_exactly_idle :
    ∀ (now : Int) (sessions : Claude.SessionReg) (s : String × Int),
      (s ∈ Claude.performCleanup now sessions ↔
        s ∈ sessions ∧ ¬ s.2 < now - Claude.idleThresholdNs) ∧
      ((s ∈ sessions ∧ s ∉ Claude.performCleanup now sessions) ↔
        (s ∈ sessions ∧ s.2 < now - Claude.idleThresholdNs)) := by
  intro now sessions s
  have hmem : s ∈ Claude.performCleanup now sessions ↔
      s ∈ sessions ∧ ¬ s.2 < now - Claude.idleThresholdNs := by
    unfold Claude.performCleanup Claude.cleanupSessions
    rw [List.mem_filter]
    simp
  refine ⟨hmem, ?_⟩
  constructor
  · rintro ⟨hin, hout⟩
    refine ⟨hin, ?_⟩
    by_contra hlt
    exact hout (hmem.mpr ⟨hin, hlt⟩)
  · rintro ⟨hin, hold⟩
    exact ⟨hin, fun hmem2 => (hmem.mp hmem2).2 hold⟩

namespace Mw

/-- `AuthConfig` (`lib/middleware/types.go`); the expiration duration is in
nanoseconds. -/
structure AuthConfig where
  enabled : Bool
  authType : String
  secret : String
  expirationNs : Int
  issuer : String
deriving DecidableEq

/-- `ValidationConfig`. -/
structure ValidationConfig where
  enabled : Bool
  strictMode : Bool
  maxRequestSize : Int
  validateHeaders : Bool
deriving DecidableEq

/-- `ResponseConfig`. -/
structure ResponseConfig where
  enabled : Bool
  standardFormat : Bool
  includeTimestamp : Bool
  includeRequestID : Bool
  compressionLevel : Int
  cacheControl : String
deriving DecidableEq

/-- `SyncConfig`; the heartbeat interval is in nanoseconds. -/
structure SyncConfig where
  enabled : Bool
  websocketEnabled : Bool
  sseEnabled : Bool
  heartbeatIntervalNs : Int
  bufferSize : Int
deriving DecidableEq

/-- `ClaudeConfig`. -/
structure ClaudeConfig where
  enabled : Bool
  apiEndpoint : String
  version : String
  maxRetries : Int
  timeoutSeconds : Int
  rateLimitRPS : Int
  enableStreaming : Bool
deriving DecidableEq

/-- `ErrorConfig`. -/
structure ErrorConfig where
  enabled : Bool
  detailedErrors : Bool
  logErrors : Bool
  includeStack : Bool
  sanitizeSecrets : Bool
deriving DecidableEq

/-- `MiddlewareConfig`. -/
structure MiddlewareConfig where
  auth : AuthConfig
  validation : ValidationConfig
  response : ResponseConfig
  sync : SyncConfig
  claude : ClaudeConfig
  errors : ErrorConfig
deriving DecidableEq

/-- `ValidateConfig` (`manager.go`): the construction-time configuration
validation, with the source's checks in source order. -/
def validateConfig (c : MiddlewareConfig) : Except String Unit :=
  if c.auth.enabled ∧ c.auth.secret = "" then
    .error "auth secret cannot be empty when auth is enabled"
  else if c.auth.enabled ∧ c.auth.authType ≠ "bearer" ∧ c.auth.authType ≠ "api_key" then
    .error "unsupported auth type"
  else if c.validation.enabled ∧ c.validation.maxRequestSize ≤ 0 then
    .error "max request size must be positive"
  else if c.sync.enabled ∧ c.sync.bufferSize ≤ 0 then
    .error "sync buffer size must be positive"
  else if c.sync.enabled ∧ c.sync.heartbeatIntervalNs ≤ 0 then
    .error "heartbeat interval must be positive"
  else if c.claude.enabled ∧ c.claude.apiEndpoint = "" then
    .error "Claude API endpoint cannot be empty when Claude is enabled"
  else if c.claude.enabled ∧ c.claude.timeoutSeconds ≤ 0 then
    .error "Claude timeout must be positive"
  else .ok ()

/-- The manager's observable state: `m.config` plus the config snapshot each
component holds after its `Configure` call. -/
structure Manager where
  config : MiddlewareConfig
  authCfg : AuthConfig
  validationCfg : ValidationConfig
  responseCfg : ResponseConfig
  syncCfg : SyncConfig
  claudeCfg : ClaudeConfig
  errorsCfg : ErrorConfig
deriving DecidableEq

/-- `NewManager` / `initializeMiddleware`: every component snapshots its part
of the configuration. -/
def newManager (c : MiddlewareConfig) : Manager :=
  ⟨c, c.auth, c.validation, c.response, c.sync, c.claude, c.errors⟩

/-- `UpdateConfig` (`manager.go`): sets `m.config = config` first, then calls
each component's `Configure`, which only type-asserts its argument and
therefore always succeeds on the typed sub-configs passed here; no call to
`ValidateConfig` is made anywhere on this path. -/
def updateConfig (_m : Manager) (c : MiddlewareConfig) : Except String Manager :=
  .ok (newManager c)

/-- `handleUpdateMiddlewareConfig`: apply the decoded config via
`UpdateConfig`; the `Bool` records whether a success response was written. -/
def handleUpdateConfig (m : Manager) (decoded : MiddlewareConfig) : Manager × Bool :=
  match updateConfig m decoded with
  | .ok m2 => (m2, true)
  | .error _ => (m, false)

/-- `CreateDefaultConfig` (`manager.go`). -/
def createDefaultConfig : MiddlewareConfig :=
  { auth := ⟨true, "bearer", "default-secret-change-me", 24 * 3600 * 1000000000, "agentapi"⟩,
    validation := ⟨true, false, 10 * 1024 * 1024, true⟩,
    response := ⟨true, true, true, true, 6, "no-cache"⟩,
    sync := ⟨true, true, true, 30 * 1000000000, 1000⟩,
    claude := ⟨true, "http://localhost:8080/api/claude", "1.0", 3, 30, 10, true⟩,
    errors := ⟨true, false, true, false, true⟩ }

/-- A configuration `ValidateConfig` rejects: auth enabled with empty secret. -/
def invalidCfg : MiddlewareConfig :=
  { createDefaultConfig with auth := { createDefaultConfig.auth with secret := "" } }

end Mw

/-- Claim C7, counterexample: the invalid configuration «auth enabled, empty
secret» fails `ValidateConfig`, yet `PUT /middleware/config` applies it:
`UpdateConfig` succeeds, every component reconfigures, and the previously
active default configuration is replaced. -/
theorem updateConfig_applies_invalid :
    Mw.validateConfig Mw.invalidCfg = .error "auth secret cannot be empty when auth is enabled" ∧
    Mw.updateConfig (Mw.newManager Mw.createDefaultConfig) Mw.invalidCfg =
      .ok (Mw.newManager Mw.invalidCfg) ∧
    (Mw.handleUpdateConfig (Mw.newManager Mw.createDefaultConfig) Mw.invalidCfg).1.config =
      Mw.invalidCfg ∧
    Mw.invalidCfg ≠ Mw.createDefaultConfig := by
  refine ⟨rfl, rfl, rfl, by decide⟩

/-- Claim C7, amended: a configuration update submitted via
`PUT /middleware/config` is applied without re-running configuration
validation — `UpdateConfig` unconditionally succeeds and replaces the
active configuration of every component, even for a configuration that
`ValidateConfig` rejects; validation runs only at construction time. -/
theorem updateConfig_unvalidated :
    ∀ (m : Mw.Manager) (c : Mw.MiddlewareConfig) (e : String),
      Mw.updateConfig m c = .ok (Mw.newManager c) ∧
      Mw.handleUpdateConfig m c = (Mw.newManager c, true) ∧
      (Mw.validateConfig c = .error e → Mw.updateConfig m c = .ok (Mw.newManager c)) := by
  intro m c e
  exact ⟨rfl, rfl, fun _ => rfl⟩

/-- Witness for the amended C7 theorem: the invalid empty-secret config is
applied although validation rejects it. -/
theorem updateConfig_unvalidated_witness :
    Mw.validateConfig Mw.invalidCfg = .error "auth secret cannot be empty when auth is enabled" ∧
    Mw.updateConfig (Mw.newManager Mw.createDefaultConfig) Mw.invalidCfg =
      .ok (Mw.newManager Mw.invalidCfg) :=
  ⟨rfl,
    (updateConfig_unvalidated (Mw.newManager Mw.createDefaultConfig) Mw.invalidCfg
      "auth secret cannot be empty when auth is enabled").2.2 rfl⟩

namespace Validation

/- The result of `json.Unmarshal` into `interface` (Go's generic JSON
value), as a mutual inductive so that structural recursion mirrors
`validateJSONStructure`'s recursion over objects and arrays. -/
mutual
inductive JsonValue where
  | null
  | boolean (b : Bool)
  | number (n : Int)
  | str (s : String)
  | arr (items : JsonArr)
  | obj (fields : JsonObj)
inductive JsonArr where
  | nil
  | cons (hd : JsonValue) (tl : JsonArr)
inductive JsonObj where
  | nil
  | cons (key : String) (val : JsonValue) (tl : JsonObj)
end

/- `validateJSONStructure` (`validation.go`): in an object, every key must be
non-empty and every value valid; in an array, every item valid; a string
value must be at most 10000 bytes. -/
mutual
def validateJSONStructure : JsonValue → Except String Unit
  | .obj fields => validateObjStructure fields
  | .arr items => validateArrStructure items
  | .str s => if s.length > 10000 then .error "string value too long" else .ok ()
  | _ => .ok ()
def validateObjStructure : JsonObj → Except String Unit
  | .nil => .ok ()
  | .cons k v tl =>
    if k = "" then .error "empty object key not allowed"
    else
      match validateJSONStructure v with
      | .error e => .error e
      | .ok _ => validateObjStructure tl
def validateArrStructure : JsonArr → Except String Unit
  | .nil => .ok ()
  | .cons v tl =>
    match validateJSONStructure v with
    | .error e => .error e
    | .ok _ => validateArrStructure tl
end

/- Property-side predicate: the parsed value contains, anywhere, an empty
object key or a string value longer than 10000. -/
mutual
def hasViolation : JsonValue → Bool
  | .obj fields => objViolation fields
  | .arr items => arrViolation items
  | .str s => decide (s.length > 10000)
  | _ => false
def objViolation : JsonObj → Bool
  | .nil => false
  | .cons k v tl => decide (k = "") || hasViolation v || objViolation tl
def arrViolation : JsonArr → Bool
  | .nil => false
  | .cons v tl => hasViolation v || arrViolation tl
end

mutual
theorem validate_ok_iff :
    ∀ v : JsonValue, validateJSONStructure v = .ok () ↔ hasViolation v = false
  | .null => by simp [validateJSONStructure, hasViolation]
  | .boolean b => by simp [validateJSONStructure, hasViolation]
  | .number n => by simp [validateJSONStructure, hasViolation]
  | .str s => by
    by_cases h : s.length > 10000 <;>
      simp [validateJSONStructure, hasViolation, h]
  | .arr items => by
    rw [show validateJSONStructure (.arr items) = validateArrStructure items from rfl,
      show hasViolation (.arr items) = arrViolation items from rfl]
    exact validateArr_ok_iff items
  | .obj fields => by
    rw [show validateJSONStructure (.obj fields) = validateObjStructure fields from rfl,
      show hasViolation (.obj fields) = objViolation fields from rfl]
    exact validateObj_ok_iff fields
theorem validateObj_ok_iff :
    ∀ o : JsonObj, validateObjStructure o = .ok () ↔ objViolation o = false
  | .nil => by simp [validateObjStructure, objViolation]
  | .cons k v tl => by
    by_cases hk : k = ""
    · simp [validateObjStructure, objViolation, hk]
    · have hv := validate_ok_iff v
      have ht := validateObj_ok_iff tl
      cases hval : validateJSONStructure v with
      | ok u =>
        cases u
        simp only [validateObjStructure, objViolation, hk, if_neg hk, hval]
        rw [hval] at hv
        simp [hv.mp rfl, ht, hk]
      | error e =>
        rw [hval] at hv
        have : hasViolation v = true := by
          by_contra hb
          have := hv.mpr (by simpa using hb)
          exact absurd this (by simp)
        simp [validateObjStructure, objViolation, hk, hval, this]
theorem validateArr_ok_iff :
    ∀ a : JsonArr, validateArrStructure a = .ok () ↔ arrViolation a = false
  | .nil => by simp [validateArrStructure, arrViolation]
  | .cons v tl => by
    have hv := validate_ok_iff v
    have ht := validateArr_ok_iff tl
    cases hval : validateJSONStructure v with
    | ok u =>
      cases u
      simp only [validateArrStructure, arrViolation, hval]
      rw [hval] at hv
      simp [hv.mp rfl, ht]
    | error e =>
      rw [hval] at hv
      have : hasViolation v = true := by
        by_contra hb
        have := hv.mpr (by simpa using hb)
        exact absurd this (by simp)
      simp [validateArrStructure, arrViolation, hval, this]
end

end Validation

namespace Validation

/-- The request fields the validator consults. `contentLength` is Go's
`r.ContentLength`: the declared `Content-Length`, `-1` when unknown (for
example chunked transfer encoding); `body` is the actual payload bytes. -/
structure HttpRequest where
  method : String
  path : String
  contentLength : Int
  contentType : String
  userAgent : String
  accept : String
  body : List Char
deriving DecidableEq

/-- `strings.Contains`. -/
def strContains (s sub : String) : Bool := decide (sub.data <:+: s.data)

/-- `strings.HasPrefix`. -/
def strHasPre (s pre : String) : Bool := decide (pre.data <+: s.data)

/-- `validateRequestSize` (`validation.go`): only the declared
`Content-Length` is consulted, never the body. -/
def validateRequestSize (cfg : Mw.ValidationConfig) (r : HttpRequest) : Except String Unit :=
  if cfg.maxRequestSize > 0 ∧ r.contentLength > cfg.maxRequestSize then
    .error "request size exceeds maximum allowed size"
  else .ok ()

/-- `validateHeaders`. -/
def validateHeaders (cfg : Mw.ValidationConfig) (r : HttpRequest) : Except String Unit :=
  if r.userAgent = "" ∧ cfg.strictMode then .error "missing User-Agent header"
  else if (strHasPre r.path "/api/" ∨ strHasPre r.path "/v1/") ∧ r.accept ≠ "" ∧
      ¬ strContains r.accept "application/json" ∧ ¬ strContains r.accept "*/*" then
    .error "unsupported Accept header"
  else .ok ()

/-- The supported content types of `validateContentType`. -/
def supportedTypes : List String :=
  ["application/json", "application/x-www-form-urlencoded", "multipart/form-data", "text/plain"]

/-- `validateContentType`. -/
def validateContentType (r : HttpRequest) : Except String Unit :=
  if r.contentLength = 0 then .ok ()
  else if r.contentType = "" then .error "missing Content-Type header"
  else if supportedTypes.any (fun t => strHasPre r.contentType t) then .ok ()
  else .error "unsupported Content-Type"

/-- `hasJSONBody`: JSON content type and a positive declared length. -/
def hasJSONBody (r : HttpRequest) : Bool :=
  strHasPre r.contentType "application/json" && decide (r.contentLength > 0)

/-- `validateAndBufferJSON`: read the whole body, require it to parse, run the
strict-mode structural check, and on success return the original bytes
(which the caller re-exposes as the downstream body). The JSON parser is an
external library function, taken as a parameter. -/
def validateAndBufferJSON (parse : List Char → Option JsonValue) (strictMode : Bool)
    (body : List Char) : Except String (List Char) :=
  if body = [] then .ok body
  else
    match parse body with
    | none => .error "invalid JSON"
    | some v =>
      if strictMode then
        match validateJSONStructure v with
        | .error e => .error e
        | .ok _ => .ok body
      else .ok body

/-- The validator's verdict on a request: pass (with the body re-exposed to
downstream handlers) or reject (status, envelope code, message from
`writeBadRequest`). -/
inductive Outcome where
  | pass (exposedBody : List Char)
  | reject (status : Nat) (code : String) (message : String)
deriving DecidableEq

/-- The validation middleware `Handler` chain (`validation.go`), in source
order: size, headers (when configured), content type (POST/PUT), then JSON
buffering; every failure is written as a 400 `VALIDATION_ERROR`. -/
def validationHandler (cfg : Mw.ValidationConfig) (parse : List Char → Option JsonValue)
    (r : HttpRequest) : Outcome :=
  if cfg.enabled = false then .pass r.body
  else
    match validateRequestSize cfg r with
    | .error e => .reject 400 "VALIDATION_ERROR" e
    | .ok _ =>
      match (if cfg.validateHeaders then validateHeaders cfg r else .ok ()) with
      | .error e => .reject 400 "VALIDATION_ERROR" e
      | .ok _ =>
        match (if r.method = "POST" ∨ r.method = "PUT" then validateContentType r
               else .ok ()) with
        | .error e => .reject 400 "VALIDATION_ERROR" e
        | .ok _ =>
          if hasJSONBody r then
            match validateAndBufferJSON parse cfg.strictMode r.body with
            | .error e => .reject 400 "VALIDATION_ERROR" e
            | .ok b => .pass b
          else .pass r.body

theorem validateAndBufferJSON_ok_body (parse : List Char → Option JsonValue)
    (strictMode : Bool) (body b : List Char)
    (h : validateAndBufferJSON parse strictMode body = .ok b) : b = body := by
  unfold validateAndBufferJSON at h
  repeat' split at h
  all_goals cases h
  all_goals rfl

end Validation

/-- Claim C9: for requests the validator treats as carrying a JSON body, the
body is read and must parse; in strict mode the request is rejected with a
400 `VALIDATION_ERROR` whenever the parsed value has an empty object key
anywhere or an over-long string value; and whenever the request passes, the
body re-exposed to downstream handlers is byte-for-byte the original
payload (the parsed form is never forwarded). -/
theorem validator_json_contract :
    (∀ (cfg : Mw.ValidationConfig) (parse : List Char → Option Validation.JsonValue)
        (r : Validation.HttpRequest) (b : List Char),
      Validation.validationHandler cfg parse r = .pass b → b = r.body) ∧
    (∀ (cfg : Mw.ValidationConfig) (parse : List Char → Option Validation.JsonValue)
        (r : Validation.HttpRequest) (v : Validation.JsonValue),
      cfg.enabled = true → cfg.strictMode = true → Validation.hasJSONBody r = true →
      r.body ≠ [] → parse r.body = some v → Validation.hasViolation v = true →
      ∃ msg, Validation.validationHandler cfg parse r = .reject 400 "VALIDATION_ERROR" msg) ∧
    (∀ (cfg : Mw.ValidationConfig) (parse : List Char → Option Validation.JsonValue)
        (r : Validation.HttpRequest) (b : List Char),
      cfg.enabled = true → cfg.strictMode = true → Validation.hasJSONBody r = true →
      Validation.validationHandler cfg parse r = .pass b →
      r.body = [] ∨ ∃ v, parse r.body = some v ∧ Validation.hasViolation v = false) := by
  refine ⟨?_, ?_, ?_⟩
  · intro cfg parse r b h
    unfold Validation.validationHandler at h
    repeat' split at h
    all_goals try cases h
    all_goals try rfl
    rename_i heq
    exact Validation.validateAndBufferJSON_ok_body _ _ _ _ heq
  · intro cfg parse r v henabled hstrict hjson hbody hparse hviol
    have hjerr : ∃ e, Validation.validateAndBufferJSON parse cfg.strictMode r.body =
        .error e := by
      unfold Validation.validateAndBufferJSON
      rw [if_neg hbody, hparse]
      dsimp only
      rw [if_pos hstrict]
      cases hval : Validation.validateJSONStructure v with
      | ok u =>
        cases u
        exact absurd ((Validation.validate_ok_iff v).mp hval) (by simp [hviol])
      | error e => exact ⟨e, rfl⟩
    unfold Validation.validationHandler
    rw [if_neg (by simp [henabled])]
    cases hsize : Validation.validateRequestSize cfg r with
    | error e => exact ⟨e, rfl⟩
    | ok u =>
      cases u
      cases hhdr : (if cfg.validateHeaders then Validation.validateHeaders cfg r
          else Except.ok ()) with
      | error e => exact ⟨e, rfl⟩
      | ok u =>
        cases u
        cases hct : (if r.method = "POST" ∨ r.method = "PUT" then
            Validation.validateContentType r else Except.ok ()) with
        | error e => exact ⟨e, rfl⟩
        | ok u =>
          cases u
          rw [if_pos hjson]
          obtain ⟨e, he⟩ := hjerr
          rw [he]
          exact ⟨e, rfl⟩
  · intro cfg parse r b henabled hstrict hjson h
    unfold Validation.validationHandler at h
    rw [if_neg (by simp [henabled]), if_pos hjson] at h
    repeat' split at h
    all_goals try cases h
    rename_i heq
    unfold Validation.validateAndBufferJSON at heq
    by_cases hb : r.body = []
    · exact Or.inl hb
    · rw [if_neg hb] at heq
      cases hp : parse r.body with
      | none => rw [hp] at heq; cases heq
      | some v =>
        rw [hp] at heq
        dsimp only at heq
        rw [if_pos hstrict] at heq
        cases hval : Validation.validateJSONStructure v with
        | error e => rw [hval] at heq; cases heq
        | ok u =>
          cases u
          exact Or.inr ⟨v, rfl, (Validation.validate_ok_iff v).mp hval⟩

/-- Witness for the C9 theorem: a strict-mode request whose parsed body is an
object with an empty key is rejected with 400 `VALIDATION_ERROR`. -/
theorem validator_json_contract_witness :
    ((⟨true, true, 1000, false⟩ : Mw.ValidationConfig).enabled = true) ∧
    Validation.hasJSONBody ⟨"POST", "/p", 2, "application/json", "ua", "", "ab".data⟩ = true ∧
    Validation.hasViolation (.obj (.cons "" .null .nil)) = true ∧
    ∃ msg, Validation.validationHandler ⟨true, true, 1000, false⟩
        (fun _ => some (.obj (.cons "" .null .nil)))
        ⟨"POST", "/p", 2, "application/json", "ua", "", "ab".data⟩ =
      .reject 400 "VALIDATION_ERROR" msg := by
  refine ⟨rfl, by decide, ?_, ?_⟩
  · simp [Validation.hasViolation, Validation.objViolation]
  · exact validator_json_contract.2.1 ⟨true, true, 1000, false⟩
      (fun _ => some (.obj (.cons "" .null .nil)))
      ⟨"POST", "/p", 2, "application/json", "ua", "", "ab".data⟩
      (.obj (.cons "" .null .nil)) rfl rfl (by decide) (by decide) rfl
      (by simp [Validation.hasViolation, Validation.objViolation])

/-- Claim C10: the size limit is enforced only against the declared
`Content-Length`: a request fails the size check iff `max_request_size` is
positive and the declared `Content-Length` exceeds it; any request with an
unknown (negative) or non-positive declared length passes the size check
regardless of the actual body; and when the check fails the handler rejects
with 400 `VALIDATION_ERROR`. -/
theorem requestSize_only_contentLength :
    (∀ (cfg : Mw.ValidationConfig) (r : Validation.HttpRequest),
      Validation.validateRequestSize cfg r = .ok () ↔
        ¬ (cfg.maxRequestSize > 0 ∧ r.contentLength > cfg.maxRequestSize)) ∧
    (∀ (cfg : Mw.ValidationConfig) (r : Validation.HttpRequest),
      r.contentLength ≤ 0 → Validation.validateRequestSize cfg r = .ok ()) ∧
    (∀ (cfg : Mw.ValidationConfig) (parse : List Char → Option Validation.JsonValue)
        (r : Validation.HttpRequest),
      cfg.enabled = true → cfg.maxRequestSize > 0 → r.contentLength > cfg.maxRequestSize →
      Validation.validationHandler cfg parse r =
        .reject 400 "VALIDATION_ERROR" "request size exceeds maximum allowed size") := by
  have hiff : ∀ (cfg : Mw.ValidationConfig) (r : Validation.HttpRequest),
      Validation.validateRequestSize cfg r = .ok () ↔
        ¬ (cfg.maxRequestSize > 0 ∧ r.contentLength > cfg.maxRequestSize) := by
    intro cfg r
    unfold Validation.validateRequestSize
    split_ifs with hcond
    · simp [hcond]
    · simp [hcond]
  refine ⟨hiff, ?_, ?_⟩
  · intro cfg r hlen
    exact (hiff cfg r).mpr (fun ⟨hmax, hgt⟩ => by omega)
  · intro cfg parse r henabled hmax hgt
    unfold Validation.validationHandler
    rw [if_neg (by simp [henabled])]
    rw [show Validation.validateRequestSize cfg r =
        .error "request size exceeds maximum allowed size" by
      unfold Validation.validateRequestSize
      rw [if_pos ⟨hmax, hgt⟩]]

/-- Witness for the C10 theorem: a chunked request (declared length −1) with a
13-byte body passes the size check although `max_request_size` is 10. -/
theorem requestSize_only_contentLength_witness :
    ((⟨"POST", "/p", -1, "application/json", "ua", "",
        "0123456789abc".data⟩ : Validation.HttpRequest).contentLength ≤ 0) ∧
    Validation.validateRequestSize ⟨true, true, 10, true⟩
      ⟨"POST", "/p", -1, "application/json", "ua", "", "0123456789abc".data⟩ = .ok () :=
  ⟨by decide, requestSize_only_contentLength.2.1 ⟨true, true, 10, true⟩
    ⟨"POST", "/p", -1, "application/json", "ua", "", "0123456789abc".data⟩ (by decide)⟩
